import Mathlib

/-!
Shallow embedding of `RelaySchemaUtils.js` (the type-resolution and
schema-composition toolkit of the Relay experimental compiler core).

The GraphQL runtime objects are modelled as follows.

* A named schema type (`GraphQLNamedType`) is a `NamedType`: a variant tag
  (`TypeKind`, one of Scalar / Object / Interface / Union / Enum /
  InputObject), a name, the list of names of its declared interfaces
  (consulted only when the kind is Object, matching the
  `instanceof GraphQLObjectType` guard in `getInterfaces`), and a field
  map from field name to the field's declared type reference.  Each
  `NamedType` also carries an `oid`, modelling JavaScript object identity:
  the source compares schema type instances with `===`, which two objects
  with the same name need not satisfy, so identity is `oid` equality.
* A type reference (`GraphQLType`) is a `TypeRef`: a `NamedType` leaf,
  possibly wrapped in `list` / `nonNull` layers.
* `toString()` on a named type returns its name, so comparisons of the
  form `type.toString() === someName` are modelled as name equality.
* A schema (`GraphQLSchema`) carries the optional root types, the type
  map, the directive list, and a stored possible-types map keyed by the
  `oid` of the abstract type (`getPossibleTypes`).
* JavaScript `invariant(...)` failures are modelled as `Option`/`Except`
  error results; the error payload of `schemaWithDirectives` and
  `getTypeFromAST` is the name / message text the invariant would embed.
-/

inductive TypeKind where
  | scalar
  | object
  | iface
  | union
  | enum
  | inputObject
deriving DecidableEq, Repr

mutual
/-- A `GraphQLNamedType` runtime object.  `oid` models JavaScript object
identity (reference equality `===`); `interfaces` holds the names of the
declared interfaces of an Object type; `fields` maps field names to the
declared type of the field. -/
inductive NamedType where
  | mk (oid : Nat) (name : String) (kind : TypeKind)
      (interfaces : List String) (fields : List (String × TypeRef)) : NamedType

/-- A `GraphQLType`: a named type possibly wrapped in List / NonNull
modifier layers. -/
inductive TypeRef where
  | named (t : NamedType) : TypeRef
  | list (t : TypeRef) : TypeRef
  | nonNull (t : TypeRef) : TypeRef
end

def NamedType.oid : NamedType → Nat
  | .mk o _ _ _ _ => o

def NamedType.name : NamedType → String
  | .mk _ n _ _ _ => n

def NamedType.kind : NamedType → TypeKind
  | .mk _ _ k _ _ => k

def NamedType.interfaces : NamedType → List String
  | .mk _ _ _ i _ => i

def NamedType.fields : NamedType → List (String × TypeRef)
  | .mk _ _ _ _ f => f

/-- A `GraphQLDirective`: only the name and the locations participate in
the logic of this module; two directives collide iff their names are
equal. -/
structure GraphQLDirective where
  name : String
  locations : List String

/-- A `GraphQLSchema` value: root operation types, the type map (keyed by
type name), the directive list, and the possible-types map for abstract
types (keyed by the abstract type's `oid`), which stands for
`schema.getPossibleTypes`. -/
structure GraphQLSchema where
  query : Option NamedType
  mutation : Option NamedType
  subscription : Option NamedType
  typeMap : List (String × NamedType)
  directives : List GraphQLDirective
  possibleTypesMap : List (Nat × List NamedType)

/-- `schema.getType(name)`: look the name up in the type map. -/
def GraphQLSchema.getType (schema : GraphQLSchema) (n : String) : Option NamedType :=
  (schema.typeMap.find? (fun p => p.1 == n)).map Prod.snd

/-- `schema.getPossibleTypes(abstractType)`: the stored possible types of
the abstract type, looked up by object identity. -/
def GraphQLSchema.getPossibleTypes (schema : GraphQLSchema) (t : NamedType) :
    List NamedType :=
  ((schema.possibleTypesMap.find? (fun p => p.1 == t.oid)).map Prod.snd).getD []

/-- `const ID = 'id';` -/
def fieldID : String := "id"

/-- `const ID_TYPE = 'ID';` -/
def ID_TYPE : String := "ID"

/-- `getRawType(type)`: the unmodified type, with list/null wrappers
removed (`nullthrows(getNamedType(type))`; `getNamedType` always yields
the inner named type of a well-formed reference, so this is total). -/
def getRawType : TypeRef → NamedType
  | .named t => t
  | .list t => getRawType t
  | .nonNull t => getRawType t

/-- `getSingularType(type)`: `while (unmodifiedType instanceof GraphQLList)
unmodifiedType = unmodifiedType.ofType;` — strip leading List layers
only, stopping at the first non-List layer. -/
def getSingularType : TypeRef → TypeRef
  | .list t => getSingularType t
  | .named t => .named t
  | .nonNull t => .nonNull t

/-- `canHaveSelections(type)`: `type instanceof GraphQLObjectType ||
type instanceof GraphQLInterfaceType` — an instanceof test on the
reference itself, with no unwrapping. -/
def canHaveSelections (type_ : TypeRef) : Bool :=
  match type_ with
  | .named t => t.kind == .object || t.kind == .iface
  | _ => false

/-- `isAbstractType(type)`: unwraps wrappers, then tests Interface/Union. -/
def isAbstractType (type_ : TypeRef) : Bool :=
  (getRawType type_).kind == .iface || (getRawType type_).kind == .union

/-- `getInterfaces(type)`: `if (type instanceof GraphQLObjectType) return
type.getInterfaces(); return [];` — the declared interfaces of an Object
reference, `[]` for everything else (wrapped references included).  The
JavaScript value is a list of interface type objects compared via
`toString()`, i.e. by name, so the model returns the names. -/
def getInterfaces (type_ : TypeRef) : List String :=
  match type_ with
  | .named t => if t.kind == .object then t.interfaces else []
  | _ => []

/-- `implementsInterface(type, interfaceName)`:
`getInterfaces(type).some(i => i.toString() === interfaceName)`. -/
def implementsInterface (type_ : TypeRef) (interfaceName : String) : Bool :=
  (getInterfaces type_).any (fun i => i == interfaceName)

/-- `getConcreteTypes(schema, type)`: `schema.getPossibleTypes(
assertAbstractType(type))`; `assertAbstractType` throws on a non-abstract
named type, modelled as `none`.  (The only caller guards with
`isAbstractType` and passes a raw named type, so the `none` branch is
unreachable there.) -/
def getConcreteTypes (schema : GraphQLSchema) (type_ : NamedType) :
    Option (List NamedType) :=
  if type_.kind == .iface || type_.kind == .union then
    some (schema.getPossibleTypes type_)
  else
    none

/-- `hasConcreteTypeThatImplements(schema, type, interfaceName)`:
`isAbstractType(type) && getConcreteTypes(schema, type).some(c =>
implementsInterface(c, interfaceName))`, at its call site applied to a
raw named type. -/
def hasConcreteTypeThatImplements (schema : GraphQLSchema) (type_ : NamedType)
    (interfaceName : String) : Bool :=
  isAbstractType (.named type_) &&
    ((getConcreteTypes schema type_).getD []).any
      (fun concreteType => implementsInterface (.named concreteType) interfaceName)

/-- `mayImplement(schema, type, typeName)`: the three-way OR over the raw
type — name equality (`toString()`), direct interface implementation, or
possible-type search for abstract types. -/
def mayImplement (schema : GraphQLSchema) (type_ : TypeRef) (typeName : String) :
    Bool :=
  let unmodifiedType := getRawType type_
  unmodifiedType.name == typeName ||
    implementsInterface (.named unmodifiedType) typeName ||
    (isAbstractType (.named unmodifiedType) &&
      hasConcreteTypeThatImplements schema unmodifiedType typeName)

/-- `hasID(schema, type)`: invariant that the raw type is Object or
Interface (modelled as `none` on violation); otherwise true iff the `id`
field exists and its raw type is identical (`===`, i.e. same `oid`) to
the schema's type named `ID`.  A missing `id` field or a schema without
an `ID` type yields `some false`. -/
def hasID (schema : GraphQLSchema) (type_ : TypeRef) : Option Bool :=
  let unmodifiedType := getRawType type_
  if unmodifiedType.kind == .object || unmodifiedType.kind == .iface then
    let idType := schema.getType ID_TYPE
    let idField := (unmodifiedType.fields.find? (fun p => p.1 == fieldID)).map Prod.snd
    some (match idField, idType with
      | some fieldType, some t => (getRawType fieldType).oid == t.oid
      | _, _ => false)
  else
    none

/-- `assertNamedType(type)`: invariant `getNamedType(type) === type`,
which holds exactly when the reference is a bare named type (no
List/NonNull wrapper); modelled as `none` on violation. -/
def assertNamedType (type_ : TypeRef) : Option NamedType :=
  match type_ with
  | .named t => some t
  | _ => none

/-- `assertTypeWithFields(type)`: invariant that the reference itself is
an Object or Interface named type; modelled as `none` on violation. -/
def assertTypeWithFields (type_ : TypeRef) : Option NamedType :=
  match type_ with
  | .named t => if t.kind == .object || t.kind == .iface then some t else none
  | _ => none

/-- The duplicate scan of `schemaWithDirectives`: walk the combined
directive list with a seen-set, failing on the first directive whose name
was already seen (`invariant(!directiveNames.has(directive.name), ...)`),
returning the duplicate name. -/
def firstDuplicateName : List GraphQLDirective → List String → Option String
  | [], _ => none
  | d :: rest, seen =>
    if seen.contains d.name then some d.name
    else firstDuplicateName rest (d.name :: seen)

/-- `schemaWithDirectives(schema, directives)`: concatenate the existing
and the new directives, fail on the first duplicate name (the error
payload is the duplicate name the invariant message embeds), otherwise
build a new `GraphQLSchema` from the original roots, the original type
map's values (each passed through `assertNamedType`, which always
succeeds on a type-map value), and the combined directives.  The rebuilt
schema derives its possible types from the same type list, so the stored
possible-types map carries over. -/
def schemaWithDirectives (schema : GraphQLSchema)
    (directives : List GraphQLDirective) : Except String GraphQLSchema :=
  let combinedDirectives := schema.directives ++ directives
  match firstDuplicateName combinedDirectives [] with
  | some n => Except.error n
  | none =>
    let types := (schema.typeMap.map Prod.snd).filterMap
      (fun t => assertNamedType (.named t))
    Except.ok
      { query := schema.query
        mutation := schema.mutation
        subscription := schema.subscription
        typeMap := types.map (fun t => (t.name, t))
        directives := combinedDirectives
        possibleTypesMap := schema.possibleTypesMap }

/-- An AST node as the classifiers see it: a `kind` tag. -/
structure ASTNode where
  kind : String

/-- `isOperationDefinitionAST(ast)`. -/
def isOperationDefinitionAST (ast : ASTNode) : Bool :=
  ast.kind == "FragmentDefinition" ||
  ast.kind == "OperationDefinition"

/-- `getOperationDefinitionAST(ast)`: the node itself when it classifies
as an operation/fragment definition, else `null`. -/
def getOperationDefinitionAST (ast : ASTNode) : Option ASTNode :=
  if isOperationDefinitionAST ast then some ast else none

/-- `isSchemaDefinitionAST(ast)`. -/
def isSchemaDefinitionAST (ast : ASTNode) : Bool :=
  ast.kind == "DirectiveDefinition" ||
  ast.kind == "EnumTypeDefinition" ||
  ast.kind == "InputObjectTypeDefinition" ||
  ast.kind == "InterfaceTypeDefinition" ||
  ast.kind == "ObjectTypeDefinition" ||
  ast.kind == "ScalarTypeDefinition" ||
  ast.kind == "TypeExtensionDefinition" ||
  ast.kind == "UnionTypeDefinition"

/-- A type-reference AST node (`TypeNode`): a named leaf possibly wrapped
in ListType / NonNullType layers. -/
inductive TypeNode where
  | namedT (n : String) : TypeNode
  | listT (t : TypeNode) : TypeNode
  | nonNullT (t : TypeNode) : TypeNode

/-- The name at the leaf of a type-reference AST node. -/
def TypeNode.leafName : TypeNode → String
  | .namedT n => n
  | .listT t => t.leafName
  | .nonNullT t => t.leafName

/-- Modelled from the spec: the external library's `typeFromAST(schema,
node)` — "resolves a (possibly wrapped) type-reference syntax node
against the schema's named types, reconstructing List/NonNull wrapper
layers per the node's own wrapper structure", absent (`undefined`) when
the named leaf is not defined in the schema.  The library's source is not
part of this repository. -/
def typeFromAST (schema : GraphQLSchema) : TypeNode → Option TypeRef
  | .namedT n => (schema.getType n).map TypeRef.named
  | .listT t => (typeFromAST schema t).map TypeRef.list
  | .nonNullT t => (typeFromAST schema t).map TypeRef.nonNull

/-- Modelled from the spec: the external library's `print(node)` — "a
'print' operation that renders a node back to source text".  For type
nodes the GraphQL source forms are `Name`, `[T]` and `T!`. -/
def printTypeNode : TypeNode → String
  | .namedT n => n
  | .listT t => "[" ++ printTypeNode t ++ "]"
  | .nonNullT t => printTypeNode t ++ "!"

/-- `getTypeFromAST(schema, ast)`: delegate to `typeFromAST`, and replace
an absent result with an UnknownTypeError (`invariant(isType(type),
'RelaySchemaUtils: Unknown type %s.', print(ast))`) whose message embeds
the printed node. -/
def getTypeFromAST (schema : GraphQLSchema) (ast : TypeNode) : Except String TypeRef :=
  match typeFromAST schema ast with
  | some t => Except.ok t
  | none =>
    Except.error ("RelaySchemaUtils: Unknown type `" ++ printTypeNode ast ++ "`.")

/-- Spec-side reconstruction used to state what a successful
`getTypeFromAST` returns: the schema type at the node's leaf, wrapped
with the node's own List/NonNull wrapper structure. -/
def wrapLike : TypeNode → NamedType → TypeRef
  | .namedT _, t => .named t
  | .listT n, t => .list (wrapLike n t)
  | .nonNullT n, t => .nonNull (wrapLike n t)

/-- `true` iff a List wrapper layer occurs anywhere in the reference
(spec-side, used to state what "removes all List wrapper layers" would
entail). -/
def containsListLayer : TypeRef → Bool
  | .named _ => false
  | .list _ => true
  | .nonNull t => containsListLayer t

/-- Demo scalar type `Int`. -/
def intScalar : NamedType := .mk 2 "Int" .scalar [] []

/-- Demo scalar type `ID` (the canonical identity type of the demo
schema). -/
def demoIDType : NamedType := .mk 3 "ID" .scalar [] []

/-- Demo object type `User implements Node { id: ID, name: Int }`. -/
def userObject : NamedType :=
  .mk 1 "User" .object ["Node"] [("id", .named demoIDType), ("name", .named intScalar)]

/-- Demo root query type. -/
def demoQueryType : NamedType := .mk 10 "Query" .object [] []

/-- Demo directive already present in the demo schema. -/
def demoDirective : GraphQLDirective := ⟨"include", []⟩

/-- Demo directive with a name disjoint from the demo schema's. -/
def demoNewDirective : GraphQLDirective := ⟨"custom", []⟩

/-- Demo schema with one directive and four named types. -/
def demoSchema : GraphQLSchema :=
  { query := some demoQueryType
    mutation := none
    subscription := none
    typeMap := [("Query", demoQueryType), ("User", userObject),
      ("ID", demoIDType), ("Int", intScalar)]
    directives := [demoDirective]
    possibleTypesMap := [] }

/-- The schema `schemaWithDirectives demoSchema [demoNewDirective]`
builds. -/
def demoComposed : GraphQLSchema :=
  { query := some demoQueryType
    mutation := none
    subscription := none
    typeMap := [("Query", demoQueryType), ("User", userObject),
      ("ID", demoIDType), ("Int", intScalar)]
    directives := [demoDirective, demoNewDirective]
    possibleTypesMap := [] }

/-- Demo schema whose own directive list repeats the name `include`. -/
def dupSchema : GraphQLSchema :=
  { query := none
    mutation := none
    subscription := none
    typeMap := []
    directives := [⟨"include", []⟩, ⟨"include", ["FIELD"]⟩]
    possibleTypesMap := [] }

/-! ## Theorems -/

/-- C1 (counterexample): the claim that `implementsInterface` looks at the
raw type is false — on a List-wrapped Object type that declares the
interface `Node`, the function returns `false` although the raw type is
an Object whose declared interface list contains `Node`. -/
theorem implementsInterface_wrapped_cex :
    ¬ (implementsInterface (TypeRef.list (TypeRef.named userObject)) "Node" = true ↔
      ((getRawType (TypeRef.list (TypeRef.named userObject))).kind = TypeKind.object ∧
        "Node" ∈ (getRawType (TypeRef.list (TypeRef.named userObject))).interfaces)) := by
  decide

/-- C1 (amended): `implementsInterface ref n` is true iff `ref` itself
(with no unwrapping of List/NonNull layers) is an Object type whose
declared interface list contains an interface named `n`; it is false for
every other reference, in particular for every wrapped reference and for
Interface, Union, Scalar, Enum and InputObject types. -/
theorem implementsInterface_characterization (ref : TypeRef) (n : String) :
    implementsInterface ref n = true ↔
      ∃ t, ref = TypeRef.named t ∧ t.kind = TypeKind.object ∧ n ∈ t.interfaces := by
  cases ref with
  | named t =>
    by_cases hk : t.kind = TypeKind.object
    · simp [implementsInterface, getInterfaces, hk, List.any_eq_true]
    · simp [implementsInterface, getInterfaces, hk]
  | list t => simp [implementsInterface, getInterfaces]
  | nonNull t => simp [implementsInterface, getInterfaces]

/-- C2: for every schema and every type reference, `mayImplement` applied
to the name of the reference's own raw type returns true (the first
disjunct, `toString()` equality, always fires). -/
theorem mayImplement_self_raw_name (schema : GraphQLSchema) (type_ : TypeRef) :
    mayImplement schema type_ (getRawType type_).name = true := by
  simp [mayImplement]

/-- C3 (counterexample): the claim that `canHaveSelections` looks at the
raw type is false — on a List-wrapped Object type it returns `false`
although the raw type is an Object. -/
theorem canHaveSelections_wrapped_cex :
    ¬ (canHaveSelections (TypeRef.list (TypeRef.named userObject)) = true ↔
      ((getRawType (TypeRef.list (TypeRef.named userObject))).kind = TypeKind.object ∨
        (getRawType (TypeRef.list (TypeRef.named userObject))).kind = TypeKind.iface)) := by
  decide

/-- C3 (amended): `canHaveSelections t` is true iff `t` itself (with no
unwrapping) is an Object or Interface named type; every wrapped reference
yields false, so the function does not agree on a wrapped type and its
raw type. -/
theorem canHaveSelections_characterization (type_ : TypeRef) :
    canHaveSelections type_ = true ↔
      ∃ t, type_ = TypeRef.named t ∧
        (t.kind = TypeKind.object ∨ t.kind = TypeKind.iface) := by
  cases type_ with
  | named t => simp [canHaveSelections]
  | list t => simp [canHaveSelections]
  | nonNull t => simp [canHaveSelections]

/-- C4 (counterexample): the claim that `getSingularType` removes all
List wrapper layers is false — on `List(NonNull(List(Int)))` the result
is `NonNull(List(Int))`, which still contains a List wrapper layer (and
is not `NonNull(Int)`). -/
theorem getSingularType_nested_list_cex :
    getSingularType (TypeRef.list (TypeRef.nonNull (TypeRef.list (TypeRef.named intScalar)))) =
      TypeRef.nonNull (TypeRef.list (TypeRef.named intScalar)) ∧
    containsListLayer
      (getSingularType
        (TypeRef.list (TypeRef.nonNull (TypeRef.list (TypeRef.named intScalar))))) = true := by
  exact ⟨rfl, rfl⟩

/-- C4 (amended): `getSingularType` strips outer List layers, repeatedly
for directly nested lists, and stops at the first non-List layer: a
NonNull wrapper — and everything beneath it — is returned unchanged.  In
particular `getSingularType (List (NonNull Int)) = NonNull Int`, not
`Int`. -/
theorem getSingularType_characterization :
    (∀ t, getSingularType (TypeRef.list t) = getSingularType t) ∧
    (∀ t, getSingularType (TypeRef.nonNull t) = TypeRef.nonNull t) ∧
    (∀ t, getSingularType (TypeRef.named t) = TypeRef.named t) ∧
    getSingularType (TypeRef.list (TypeRef.nonNull (TypeRef.named intScalar))) =
      TypeRef.nonNull (TypeRef.named intScalar) := by
  exact ⟨fun t => rfl, fun t => rfl, fun t => rfl, rfl⟩

/-- C8: `isSchemaDefinitionAST` holds exactly on the eight
schema-definition kinds, `isOperationDefinitionAST` exactly on
fragment/operation definitions, the two predicates are never both true,
and on a `FieldDefinition` node both are false. -/
theorem ast_classifier_characterization (ast : ASTNode) :
    (isSchemaDefinitionAST ast = true ↔
      ast.kind ∈ ["DirectiveDefinition", "EnumTypeDefinition",
        "InputObjectTypeDefinition", "InterfaceTypeDefinition",
        "ObjectTypeDefinition", "ScalarTypeDefinition",
        "TypeExtensionDefinition", "UnionTypeDefinition"]) ∧
    (isOperationDefinitionAST ast = true ↔
      ast.kind ∈ ["FragmentDefinition", "OperationDefinition"]) ∧
    (¬ (isSchemaDefinitionAST ast = true ∧ isOperationDefinitionAST ast = true)) ∧
    isSchemaDefinitionAST (ASTNode.mk "FieldDefinition") = false ∧
    isOperationDefinitionAST (ASTNode.mk "FieldDefinition") = false := by
  obtain ⟨k⟩ := ast
  refine ⟨?_, ?_, ?_, by decide, by decide⟩
  · simp only [isSchemaDefinitionAST, Bool.or_eq_true, beq_iff_eq, List.mem_cons,
      List.not_mem_nil, or_false]
    tauto
  · simp only [isOperationDefinitionAST, Bool.or_eq_true, beq_iff_eq, List.mem_cons,
      List.not_mem_nil, or_false]
  · rintro ⟨h1, h2⟩
    simp only [isSchemaDefinitionAST, isOperationDefinitionAST, Bool.or_eq_true,
      beq_iff_eq] at h1 h2
    rcases h2 with h2 | h2 <;> rw [h2] at h1 <;> revert h1 <;> decide

/-- Helper: `find?` on the first component agrees with association-list
`lookup` (the statement side of C5 speaks in terms of `lookup`). -/
theorem find?_fst_eq_lookup (n : String) (l : List (String × α)) :
    (l.find? (fun p => p.1 == n)).map Prod.snd = l.lookup n := by
  induction l with
  | nil => rfl
  | cons p rest ih =>
    obtain ⟨k, v⟩ := p
    by_cases h : k = n
    · subst h; simp [List.find?, List.lookup]
    · simp only [List.find?, List.lookup]
      rw [show (k == n) = false by simp [h], show (n == k) = false by simp [Ne.symm h]]
      exact ih

/-- C5: `hasID` fails (InvariantViolation, modelled `none`) exactly when
the raw type is not Object/Interface; on an Object/Interface raw type it
returns true exactly when the `id` field exists and its raw type is the
same schema type instance (`oid` identity, not name equality) as the
schema's type named `ID`, and it returns false — without an error — in
every other case, including an absent `id` field or a schema without an
`ID` type. -/
theorem hasID_characterization (schema : GraphQLSchema) (type_ : TypeRef) :
    (hasID schema type_ = none ↔
      ¬ ((getRawType type_).kind = TypeKind.object ∨
        (getRawType type_).kind = TypeKind.iface)) ∧
    (hasID schema type_ = some true ↔
      (((getRawType type_).kind = TypeKind.object ∨
        (getRawType type_).kind = TypeKind.iface) ∧
        ∃ fieldType idT,
          (getRawType type_).fields.lookup fieldID = some fieldType ∧
          schema.getType ID_TYPE = some idT ∧
          (getRawType fieldType).oid = idT.oid)) ∧
    (hasID schema type_ = some false ↔
      (((getRawType type_).kind = TypeKind.object ∨
        (getRawType type_).kind = TypeKind.iface) ∧
        ¬ ∃ fieldType idT,
          (getRawType type_).fields.lookup fieldID = some fieldType ∧
          schema.getType ID_TYPE = some idT ∧
          (getRawType fieldType).oid = idT.oid)) := by
  rw [← find?_fst_eq_lookup]
  by_cases hk : ((getRawType type_).kind = TypeKind.object ∨
      (getRawType type_).kind = TypeKind.iface)
  · have hb : ((getRawType type_).kind == TypeKind.object ||
        (getRawType type_).kind == TypeKind.iface) = true := by
      simpa using hk
    rcases hfind : ((getRawType type_).fields.find? (fun p => p.1 == fieldID)) with _ | ft
    · simp [hasID, hb, hfind, hk]
    · rcases hid : schema.getType ID_TYPE with _ | it
      · simp [hasID, hb, hfind, hid, hk]
      · simp [hasID, hb, hfind, hid, hk]
  · have hb : ((getRawType type_).kind == TypeKind.object ||
        (getRawType type_).kind == TypeKind.iface) = false := by
      simpa using hk
    simp [hasID, hb, hk]

/-- Helper: the duplicate scan returns `none` exactly when the directive
names are pairwise distinct and none of them was already seen. -/
theorem firstDuplicateName_none_iff (l : List GraphQLDirective) :
    ∀ seen : List String, firstDuplicateName l seen = none ↔
      ((l.map GraphQLDirective.name).Nodup ∧
        ∀ n ∈ l.map GraphQLDirective.name, n ∉ seen) := by
  induction l with
  | nil =>
    intro seen
    simp [firstDuplicateName]
  | cons d rest ih =>
    intro seen
    simp only [firstDuplicateName, List.map_cons, List.nodup_cons, List.mem_cons]
    by_cases hc : d.name ∈ seen
    · rw [if_pos (by simpa [List.contains] using hc)]
      constructor
      · intro h
        exact absurd h (by simp)
      · rintro ⟨-, hall⟩
        exact absurd hc (hall d.name (Or.inl rfl))
    · rw [if_neg (by simpa [List.contains] using hc), ih (d.name :: seen)]
      simp only [List.mem_cons, not_or]
      constructor
      · rintro ⟨hnd, hall⟩
        refine ⟨⟨fun hmem => (hall d.name hmem).1 rfl, hnd⟩, ?_⟩
        rintro n (hn | hn)
        · rw [hn]
          exact hc
        · exact (hall n hn).2
      · rintro ⟨⟨hdn, hnd⟩, hall⟩
        refine ⟨hnd, fun n hn => ⟨?_, hall n (Or.inr hn)⟩⟩
        intro hne
        rw [hne] at hn
        exact hdn hn

/-- Helper: when the duplicate scan reports `n`, the scanned list splits
as a duplicate-free prefix already containing `n` (or `n` was in the
initial seen-set), followed by the directive whose name repeats. -/
theorem firstDuplicateName_some (l : List GraphQLDirective) :
    ∀ (seen : List String) (n : String), firstDuplicateName l seen = some n →
      ∃ l₁ d l₂, l = l₁ ++ d :: l₂ ∧ d.name = n ∧
        (n ∈ l₁.map GraphQLDirective.name ∨ n ∈ seen) ∧
        (l₁.map GraphQLDirective.name).Nodup ∧
        ∀ m ∈ l₁.map GraphQLDirective.name, m ∉ seen := by
  induction l with
  | nil =>
    intro seen n h
    simp [firstDuplicateName] at h
  | cons d rest ih =>
    intro seen n h
    by_cases hc : d.name ∈ seen
    · rw [firstDuplicateName, if_pos (by simpa [List.contains] using hc)] at h
      obtain rfl : d.name = n := Option.some.inj h
      exact ⟨[], d, rest, rfl, rfl, Or.inr hc, List.nodup_nil, by simp⟩
    · rw [firstDuplicateName, if_neg (by simpa [List.contains] using hc)] at h
      obtain ⟨l₁, d', l₂, hsplit, hname, hmem, hnd, hall⟩ := ih (d.name :: seen) n h
      refine ⟨d :: l₁, d', l₂, by rw [hsplit]; rfl, hname, ?_, ?_, ?_⟩
      · rcases hmem with hm | hm
        · exact Or.inl (by rw [List.map_cons]; exact List.mem_cons_of_mem _ hm)
        · rcases List.mem_cons.mp hm with he | hm'
          · exact Or.inl (by rw [List.map_cons, he]; exact List.mem_cons_self _ _)
          · exact Or.inr hm'
      · rw [List.map_cons, List.nodup_cons]
        exact ⟨fun hmem => (hall d.name hmem) (List.mem_cons_self _ _), hnd⟩
      · rw [List.map_cons]
        intro m hm
        rcases List.mem_cons.mp hm with he | hm'
        · rw [he]
          exact hc
        · exact fun hs => (hall m hm') (List.mem_cons_of_mem _ hs)

/-- C6: `schemaWithDirectives` fails iff the combined sequence (existing
directives followed by the new ones) repeats a name; the reported name is
the first repeated one in sequence order (it follows a duplicate-free
prefix that already contains it); on success the result's directive list
is exactly the combined sequence, so a single disjoint-named directive
grows the count by one. -/
theorem schemaWithDirectives_duplicate_detection (schema : GraphQLSchema)
    (ds : List GraphQLDirective) :
    ((∃ n, schemaWithDirectives schema ds = Except.error n) ↔
      ¬ ((schema.directives ++ ds).map GraphQLDirective.name).Nodup) ∧
    (∀ n, schemaWithDirectives schema ds = Except.error n →
      ∃ l₁ d l₂, schema.directives ++ ds = l₁ ++ d :: l₂ ∧ d.name = n ∧
        n ∈ l₁.map GraphQLDirective.name ∧ (l₁.map GraphQLDirective.name).Nodup) ∧
    (∀ s', schemaWithDirectives schema ds = Except.ok s' →
      s'.directives = schema.directives ++ ds) ∧
    (∀ d s', ds = [d] → schemaWithDirectives schema ds = Except.ok s' →
      s'.directives.length = schema.directives.length + 1) := by
  rcases hfd : firstDuplicateName (schema.directives ++ ds) [] with _ | n0
  · have hnodup := ((firstDuplicateName_none_iff _ []).mp hfd).1
    refine ⟨?_, ?_, ?_, ?_⟩
    · constructor
      · rintro ⟨n, hn⟩
        simp [schemaWithDirectives, hfd] at hn
      · intro h
        exact absurd hnodup h
    · intro n hn
      simp [schemaWithDirectives, hfd] at hn
    · intro s' hs
      simp only [schemaWithDirectives, hfd, Except.ok.injEq] at hs
      subst hs
      rfl
    · intro d s' hds hs
      subst hds
      simp only [schemaWithDirectives, hfd, Except.ok.injEq] at hs
      subst hs
      simp
  · refine ⟨?_, ?_, ?_, ?_⟩
    · constructor
      · rintro ⟨n, -⟩
        intro hndup
        have hnone : firstDuplicateName (schema.directives ++ ds) [] = none :=
          (firstDuplicateName_none_iff _ []).mpr ⟨hndup, by simp⟩
        rw [hnone] at hfd
        cases hfd
      · intro _
        exact ⟨n0, by simp [schemaWithDirectives, hfd]⟩
    · intro n hn
      have hn0 : n0 = n := by
        simp only [schemaWithDirectives, hfd, Except.error.injEq] at hn
        exact hn
      subst hn0
      obtain ⟨l₁, d, l₂, hsplit, hname, hmem, hnd, hall⟩ :=
        firstDuplicateName_some _ [] n0 hfd
      rcases hmem with hm | hm
      · exact ⟨l₁, d, l₂, hsplit, hname, hm, hnd⟩
      · exact absurd hm (List.not_mem_nil _)
    · intro s' hs
      simp [schemaWithDirectives, hfd] at hs
    · intro d s' hds hs
      simp [schemaWithDirectives, hfd] at hs

/-- Helper: `assertNamedType` succeeds on every bare named type, so
mapping it over a type-map's values keeps the list unchanged. -/
theorem filterMap_assertNamedType (l : List NamedType) :
    l.filterMap (fun t => assertNamedType (TypeRef.named t)) = l := by
  induction l with
  | nil => rfl
  | cons t rest ih => simp [List.filterMap_cons, assertNamedType, ih]

/-- C7: on success, `schemaWithDirectives` returns a schema with the
original root query/mutation/subscription types and a type map whose
entries are exactly the original schema's named types (the embedding is
purely functional, so the input schema value itself is untouched by
construction). -/
theorem schemaWithDirectives_frame (schema : GraphQLSchema)
    (ds : List GraphQLDirective) (s' : GraphQLSchema)
    (h : schemaWithDirectives schema ds = Except.ok s') :
    s'.query = schema.query ∧ s'.mutation = schema.mutation ∧
    s'.subscription = schema.subscription ∧
    s'.typeMap.map Prod.snd = schema.typeMap.map Prod.snd ∧
    s'.typeMap.map Prod.fst = (schema.typeMap.map Prod.snd).map NamedType.name := by
  rcases hfd : firstDuplicateName (schema.directives ++ ds) [] with _ | n0
  · simp only [schemaWithDirectives, hfd, Except.ok.injEq] at h
    subst h
    refine ⟨rfl, rfl, rfl, ?_, ?_⟩
    · show (((schema.typeMap.map Prod.snd).filterMap
          (fun t => assertNamedType (TypeRef.named t))).map
            (fun t => (t.name, t))).map Prod.snd = schema.typeMap.map Prod.snd
      rw [filterMap_assertNamedType, List.map_map]
      simp [Function.comp]
    · show (((schema.typeMap.map Prod.snd).filterMap
          (fun t => assertNamedType (TypeRef.named t))).map
            (fun t => (t.name, t))).map Prod.fst =
        (schema.typeMap.map Prod.snd).map NamedType.name
      rw [filterMap_assertNamedType, List.map_map]
      rfl
  · simp [schemaWithDirectives, hfd] at h

/-- C7 witness: the frame theorem applied to the demo schema and the
disjoint-named demo directive. -/
theorem schemaWithDirectives_frame_witness :
    demoComposed.query = demoSchema.query ∧
    demoComposed.mutation = demoSchema.mutation ∧
    demoComposed.subscription = demoSchema.subscription ∧
    demoComposed.typeMap.map Prod.snd = demoSchema.typeMap.map Prod.snd ∧
    demoComposed.typeMap.map Prod.fst =
      (demoSchema.typeMap.map Prod.snd).map NamedType.name :=
  schemaWithDirectives_frame demoSchema [demoNewDirective] demoComposed (by rfl)

/-- C10: when the base schema's own directive list repeats a name,
`schemaWithDirectives` with an empty list of new directives fails,
reporting a name that indeed occurs at least twice among the base
schema's directive names. -/
theorem schemaWithDirectives_base_duplicates (schema : GraphQLSchema)
    (h : ¬ ((schema.directives.map GraphQLDirective.name).Nodup)) :
    ∃ n, schemaWithDirectives schema [] = Except.error n ∧
      2 ≤ (schema.directives.map GraphQLDirective.name).count n := by
  rcases hfd : firstDuplicateName (schema.directives ++ []) [] with _ | n0
  · exfalso
    have hnodup := ((firstDuplicateName_none_iff _ []).mp hfd).1
    rw [List.append_nil] at hnodup
    exact h hnodup
  · obtain ⟨l₁, d, l₂, hsplit, hname, hmem, hnd, hall⟩ :=
      firstDuplicateName_some _ [] n0 hfd
    have hfd' : firstDuplicateName schema.directives [] = some n0 := by
      rwa [List.append_nil] at hfd
    rcases hmem with hm | hm
    · refine ⟨n0, by simp [schemaWithDirectives, hfd'], ?_⟩
      have hsplit' : schema.directives = l₁ ++ d :: l₂ := by
        rwa [List.append_nil] at hsplit
      rw [hsplit']
      simp only [List.map_append, List.map_cons, List.count_append]
      rw [hname, List.count_cons_self]
      have h1 : 1 ≤ (l₁.map GraphQLDirective.name).count n0 :=
        List.one_le_count_iff.mpr hm
      omega
    · exact absurd hm (List.not_mem_nil _)

/-- C10 witness: the theorem applied to the demo schema whose directive
list repeats the name `include`. -/
theorem schemaWithDirectives_base_duplicates_witness :
    ∃ n, schemaWithDirectives dupSchema [] = Except.error n ∧
      2 ≤ (dupSchema.directives.map GraphQLDirective.name).count n :=
  schemaWithDirectives_base_duplicates dupSchema (by decide)

/-- Helper: `typeFromAST` resolves the node's leaf name in the schema and
rebuilds the node's wrapper structure around the result. -/
theorem typeFromAST_eq_getType (schema : GraphQLSchema) (node : TypeNode) :
    typeFromAST schema node = (schema.getType node.leafName).map (wrapLike node) := by
  induction node with
  | namedT n => rfl
  | listT t ih =>
    show (typeFromAST schema t).map TypeRef.list = _
    rw [ih, Option.map_map]
    rfl
  | nonNullT t ih =>
    show (typeFromAST schema t).map TypeRef.nonNull = _
    rw [ih, Option.map_map]
    rfl

/-- C9: `getTypeFromAST` fails exactly when the node's leaf name is not a
type of the schema; the error message embeds the printed source text of
the node; on success the result is the schema's type at the leaf,
re-wrapped with the node's own List/NonNull structure. -/
theorem getTypeFromAST_characterization (schema : GraphQLSchema) (node : TypeNode) :
    ((∃ e, getTypeFromAST schema node = Except.error e) ↔
      schema.getType node.leafName = none) ∧
    (∀ e, getTypeFromAST schema node = Except.error e →
      ∃ pre post, e = pre ++ printTypeNode node ++ post) ∧
    (∀ t, getTypeFromAST schema node = Except.ok t →
      ∃ nt, schema.getType node.leafName = some nt ∧ t = wrapLike node nt) := by
  rcases hg : schema.getType node.leafName with _ | nt
  · have hta : typeFromAST schema node = none := by
      rw [typeFromAST_eq_getType, hg]
      rfl
    refine ⟨?_, ?_, ?_⟩
    · simp [getTypeFromAST, hta]
    · intro e he
      simp only [getTypeFromAST, hta, Except.error.injEq] at he
      exact ⟨"RelaySchemaUtils: Unknown type `", "`.", he.symm⟩
    · intro t ht
      simp [getTypeFromAST, hta] at ht
  · have hta : typeFromAST schema node = some (wrapLike node nt) := by
      rw [typeFromAST_eq_getType, hg]
      rfl
    refine ⟨?_, ?_, ?_⟩
    · simp [getTypeFromAST, hta]
    · intro e he
      simp [getTypeFromAST, hta] at he
    · intro t ht
      simp only [getTypeFromAST, hta, Except.ok.injEq] at ht
      exact ⟨nt, rfl, ht.symm⟩
